import Mathlib

/-! Shallow embedding of the hook dispatch engine of gatewayd (Go package
`hook`: `NewHookConfig`, `Config.Add`, `Config.Get`, `Config.Hooks` and
`Config.Run`), together with reference functions used to state and prove
properties of the dispatch loop.

Go maps are modelled as association lists; every map reachable through
`NewHookConfig` and `Add` has pairwise-distinct keys.  `sort.SliceStable`
over the key snapshot of such a map produces the unique ascending
arrangement of the keys regardless of iteration order, so it is modelled
by a deterministic insertion sort.  Machine integers (`Priority` is a Go
`int`) appear only as map keys, never in arithmetic, and are modelled by
`Int`.  gRPC contexts are observable to the engine only through nil-ness,
which is passed as a `Bool`; call options are threaded through verbatim
and are omitted. -/

namespace hook

/-- Leaf values of the structured payload (the `structpb` value kinds).  The
engine never inspects values, only top-level field names, so the leaf carrier
is modelled by a small closed inductive; `vNum` carries an `Int` because no
engine operation performs arithmetic on payload numbers. -/
inductive Val where
  | vNull : Val
  | vBool : Bool → Val
  | vNum : Int → Val
  | vStr : String → Val
  deriving DecidableEq

/-- Leaf values of the native payload map: values already representable in the
structured form, host-specific values that the cast step normalizes
(durations), and values that cannot be represented at all. -/
inductive NVal where
  | prim : Val → NVal
  | duration : Int → NVal
  | unsupported : String → NVal
  deriving DecidableEq

/-- Modelled from the spec: the hook type identifier (Go `type Type string`;
the type declaration is outside src, its constants are in the source). -/
abbrev Typ := String

/-- Go `type Priority int`: a signed integer priority. -/
abbrev Priority := Int

/-- A native payload: the Go `map[string]interface{}` at the engine boundary. -/
abbrev NMap := List (String × NVal)

/-- The fields of a non-nil `structpb.Struct`. -/
abbrev Strct := List (String × Val)

/-- A `*structpb.Struct`: `none` is the nil pointer. -/
abbrev StructP := Option Strct

/-- Modelled from the spec: a callback
`(ctx, StructuredPayload, opts...) → (StructuredPayload, ErrorOrNone)`
(Go `type HookDef func(...)`, declared outside src).  The context and the call
options are threaded through unchanged by the engine and are not observable in
the embedding; the error component is kept to show that it is discarded. -/
structure HookDef where
  fn : StructP → StructP × Option String

/-- Modelled from the spec: `config.Policy` (package config is outside src) is
the four-member verification policy enumeration, an integer-backed Go enum;
only the distinctness of the four constants matters to the engine. -/
abbrev Policy := Int

/-- Modelled from the spec: the `PassDown` policy constant. -/
def PassDown : Policy := 0

/-- Modelled from the spec: the `Ignore` policy constant. -/
def Ignore : Policy := 1

/-- Modelled from the spec: the `Abort` policy constant. -/
def Abort : Policy := 2

/-- Modelled from the spec: the `Remove` policy constant. -/
def Remove : Policy := 3

/-- Modelled from the spec: the two error kinds the engine surfaces
(`gerr.ErrNilContext` and `gerr.ErrCastFailed`; package errors is outside
src).  Wrapped causes are not observable to callers of `Run`. -/
inductive GErr where
  | nilContext : GErr
  | castFailed : GErr
  deriving DecidableEq

/-- Go hook type constants (source lines 17 to 37). -/
def OnConfigLoaded : Typ := "onConfigLoaded"

def OnNewLogger : Typ := "onNewLogger"

def OnNewPool : Typ := "onNewPool"

def OnNewProxy : Typ := "onNewProxy"

def OnNewServer : Typ := "onNewServer"

def OnSignal : Typ := "onSignal"

def OnRun : Typ := "onRun"

def OnBooting : Typ := "onBooting"

def OnBooted : Typ := "onBooted"

def OnOpening : Typ := "onOpening"

def OnOpened : Typ := "onOpened"

def OnClosing : Typ := "onClosing"

def OnClosed : Typ := "onClosed"

def OnTraffic : Typ := "onTraffic"

def OnIngressTraffic : Typ := "onIngressTraffic"

def OnEgressTraffic : Typ := "onEgressTraffic"

def OnShutdown : Typ := "onShutdown"

def OnTick : Typ := "onTick"

def OnNewClient : Typ := "onNewClient"

/-- Go map read `m[k]`: the first binding of `k`, if any. -/
def lookupA {α β : Type} [DecidableEq α] (k : α) : List (α × β) → Option β
  | [] => none
  | kv :: rest => if kv.1 = k then some kv.2 else lookupA k rest

/-- Go map write `m[k] = v`: replace the binding of `k`, appending when `k` is
absent. -/
def setA {α β : Type} [DecidableEq α] (k : α) (v : β) : List (α × β) → List (α × β)
  | [] => [(k, v)]
  | kv :: rest => if kv.1 = k then (k, v) :: rest else kv :: setA k v rest

/-- Go `delete(m, k)`: drop the binding of `k` (Go maps hold at most one). -/
def eraseA {α β : Type} [DecidableEq α] (k : α) : List (α × β) → List (α × β)
  | [] => []
  | kv :: rest => if kv.1 = k then eraseA k rest else kv :: eraseA k rest

/-- The hook registry (source lines 40 to 44): `hooks` is
`map[Type]map[Priority]HookDef`.  The logger field is omitted: logging is its
only use in the dispatch engine and it has no observable effect on results. -/
structure Config where
  hooks : List (Typ × List (Priority × HookDef))

/-- Source lines 47 to 51. -/
def NewHookConfig : Config := ⟨[]⟩

/-- Source lines 54 to 56. -/
def Config.Hooks (h : Config) : List (Typ × List (Priority × HookDef)) := h.hooks

/-- Source lines 59 to 73: both branches amount to setting
`hooks[hookType][prio] := hookFunc` (the branch on `len(h.hooks[hookType])`
installs a fresh one-entry inner map, the other replaces in place; the
replacement warning log has no observable effect). -/
def Config.Add (h : Config) (hookType : Typ) (prio : Priority) (hookFunc : HookDef) : Config :=
  ⟨setA hookType (setA prio hookFunc ((lookupA hookType h.hooks).getD [])) h.hooks⟩

/-- Source lines 76 to 78 (a missing key yields the nil map, observationally
the empty map). -/
def Config.Get (h : Config) (hookType : Typ) : List (Priority × HookDef) :=
  (lookupA hookType h.hooks).getD []

/-- Modelled from the spec: `utils.CastToPrimitiveTypes` (plugin/utils is
outside src) normalizes host-specific leaf types into the primitive set,
durations becoming numbers; values already representable pass through. -/
def castPrim : NVal → NVal
  | NVal.duration n => NVal.prim (Val.vNum n)
  | v => v

/-- Source line 110: the native payload after the normalization pass. -/
def castToPrimitiveTypes (args : NMap) : NMap :=
  args.map (fun kv => (kv.1, castPrim kv.2))

/-- Models `structpb.NewValue` on leaves: primitive values are representable,
anything else makes the conversion fail. -/
def toPrim : NVal → Option Val
  | NVal.prim v => some v
  | _ => none

/-- Models `structpb.NewStruct`: convert every field, failing if any value is
not representable in the structured form. -/
def newStructF : NMap → Option Strct
  | [] => some []
  | kv :: rest =>
    match toPrim kv.2, newStructF rest with
    | some w, some s => some ((kv.1, w) :: s)
    | _, _ => none

/-- Source lines 113 to 120: an empty native map encodes to the empty struct;
otherwise `structpb.NewStruct` is used and its failure becomes `CastFailed`. -/
def encodeParams (args : NMap) : Option Strct :=
  if args.isEmpty then some [] else newStructF args

/-- Models `structpb.Struct.AsMap` on the fields of a non-nil struct. -/
def asMapS (s : Strct) : NMap := s.map (fun kv => (kv.1, NVal.prim kv.2))

/-- Models `(*structpb.Struct).AsMap`: a nil struct pointer decodes to the
empty (non-nil) native map, because `GetFields` of nil is nil. -/
def asMapP : StructP → NMap
  | none => []
  | some s => asMapS s

/-- Modelled from the spec: `utils.Verify` (plugin/utils is outside src).  The
output is shape-compatible iff every top-level key of the output is also a
top-level key of the input; values are never compared; a nil output is never
shape-compatible. -/
def Verify (params : Strct) (result : StructP) : Bool :=
  match result with
  | none => false
  | some out => out.all (fun kv => (lookupA kv.1 params).isSome)

/-- Source lines 122 to 129: the snapshot of the inner map is sorted ascending
by priority; with pairwise-distinct keys, `sort.SliceStable` over any map
iteration order yields this unique ascending arrangement. -/
def sortByPrio (l : List (Priority × HookDef)) : List (Priority × HookDef) :=
  l.insertionSort (fun a b => a.1 ≤ b.1)

/-- The mutable state of the dispatch loop (source lines 132 to 133), plus the
invocation trace `calls`: the (priority, argument) of every callback
invocation, in order — ghost instrumentation for the ordering claims. -/
structure LoopSt where
  returnVal : StructP
  removeList : List Priority
  calls : List (Priority × StructP)
  deriving DecidableEq

/-- Outcome of the loop: an early return (the `Abort` path, which skips the
deletion pass) or normal completion. -/
inductive LoopRes where
  | early : NMap → List (Priority × StructP) → LoopRes
  | done : LoopSt → LoopRes
  deriving DecidableEq

/-- Source lines 135 to 196, one iteration per list element.  `idx` is the Go
loop index, `cargs` the native args after the cast (returned directly by the
`Abort` branch at index 0).  Branch order follows the source: the adoption
guard (line 148), then the policy switch with cases `Ignore`, `Abort`,
`Remove`, `PassDown` (empty body) and `default`. -/
def runLoop (vf : Strct → StructP → Bool) (pol : Policy) (params : Strct) (cargs : NMap) :
    List (Priority × HookDef) → Nat → LoopSt → LoopRes
  | [], _, st => LoopRes.done st
  | kv :: rest, idx, st =>
    if vf params ((kv.2.fn (if idx = 0 then some params else st.returnVal)).1) = true
        ∨ pol = PassDown then
      runLoop vf pol params cargs rest (idx + 1)
        ⟨(kv.2.fn (if idx = 0 then some params else st.returnVal)).1, st.removeList,
         st.calls ++ [(kv.1, if idx = 0 then some params else st.returnVal)]⟩
    else if pol = Ignore then
      runLoop vf pol params cargs rest (idx + 1)
        ⟨if idx = 0 then some params else st.returnVal, st.removeList,
         st.calls ++ [(kv.1, if idx = 0 then some params else st.returnVal)]⟩
    else if pol = Abort then
      LoopRes.early (if idx = 0 then cargs else asMapP st.returnVal)
        (st.calls ++ [(kv.1, if idx = 0 then some params else st.returnVal)])
    else if pol = Remove then
      runLoop vf pol params cargs rest (idx + 1)
        ⟨if idx = 0 then some params else st.returnVal, st.removeList ++ [kv.1],
         st.calls ++ [(kv.1, if idx = 0 then some params else st.returnVal)]⟩
    else if pol = PassDown then
      runLoop vf pol params cargs rest (idx + 1)
        ⟨st.returnVal, st.removeList,
         st.calls ++ [(kv.1, if idx = 0 then some params else st.returnVal)]⟩
    else
      runLoop vf pol params cargs rest (idx + 1)
        ⟨(kv.2.fn (if idx = 0 then some params else st.returnVal)).1, st.removeList,
         st.calls ++ [(kv.1, if idx = 0 then some params else st.returnVal)]⟩

/-- What a call to `Run` produces: the returned native map (`none` is the Go
nil map returned on the error paths), the returned error, the registry after
the call, and the invocation trace. -/
structure RunOut where
  ret : Option NMap
  err : Option GErr
  hooksAfter : List (Typ × List (Priority × HookDef))
  calls : List (Priority × StructP)

/-- Source lines 94 to 204, parametric in the verifier.  Early return skips
the deletion pass (lines 198 to 201); on normal completion each priority of
`removeList` is deleted from the inner map, which, in the Go original, is
mutated in place — so the outer map changes only if it actually has an entry
at `t` (deleting from the nil map of an absent hook type is a no-op). -/
def runCore (vf : Strct → StructP → Bool) (hooks0 : List (Typ × List (Priority × HookDef)))
    (ctxIsNil : Bool) (args0 : NMap) (t : Typ) (pol : Policy) : RunOut :=
  if ctxIsNil then ⟨none, some GErr.nilContext, hooks0, []⟩
  else
    match encodeParams (castToPrimitiveTypes args0) with
    | none => ⟨none, some GErr.castFailed, hooks0, []⟩
    | some params =>
      match runLoop vf pol params (castToPrimitiveTypes args0)
          (sortByPrio ((lookupA t hooks0).getD [])) 0 ⟨some [], [], []⟩ with
      | LoopRes.early r cs => ⟨some r, none, hooks0, cs⟩
      | LoopRes.done st =>
        ⟨some (asMapP st.returnVal), none,
         (if (lookupA t hooks0).isSome then
            setA t (st.removeList.foldl (fun m p => eraseA p m)
              ((lookupA t hooks0).getD [])) hooks0
          else hooks0),
         st.calls⟩

/-- Source lines 94 to 204: `Run` is the dispatch loop with the production
verifier `utils.Verify`. -/
def Config.Run (h : Config) (ctxIsNil : Bool) (args : NMap) (hookType : Typ)
    (verification : Policy) : RunOut :=
  runCore Verify h.hooks ctxIsNil args hookType verification

/-- Reference function: the value of `returnVal` adopted after one loop
iteration, branch for branch as in `runLoop`. -/
def nextVal (vf : Strct → StructP → Bool) (pol : Policy) (params : Strct) (idx : Nat)
    (prev : StructP) (kv : Priority × HookDef) : StructP :=
  if vf params ((kv.2.fn (if idx = 0 then some params else prev)).1) = true
      ∨ pol = PassDown then
    (kv.2.fn (if idx = 0 then some params else prev)).1
  else if pol = Ignore then (if idx = 0 then some params else prev)
  else if pol = Abort then prev
  else if pol = Remove then (if idx = 0 then some params else prev)
  else if pol = PassDown then prev
  else (kv.2.fn (if idx = 0 then some params else prev)).1

/-- Reference function: the (priority, argument) of every invocation the loop
performs when it is not cut short, chaining `nextVal`. -/
def chainCalls (vf : Strct → StructP → Bool) (pol : Policy) (params : Strct) :
    List (Priority × HookDef) → Nat → StructP → List (Priority × StructP)
  | [], _, _ => []
  | kv :: rest, idx, prev =>
    (kv.1, if idx = 0 then some params else prev) ::
      chainCalls vf pol params rest (idx + 1) (nextVal vf pol params idx prev kv)

/-- Reference function: the priorities scheduled for removal, branch for
branch as in `runLoop` (only the `Remove` case schedules). -/
def failedPrios (vf : Strct → StructP → Bool) (pol : Policy) (params : Strct) :
    List (Priority × HookDef) → Nat → StructP → List Priority
  | [], _, _ => []
  | kv :: rest, idx, prev =>
    (if vf params ((kv.2.fn (if idx = 0 then some params else prev)).1) = true
        ∨ pol = PassDown then ([] : List Priority)
     else if pol = Ignore then []
     else if pol = Abort then []
     else if pol = Remove then [kv.1]
     else []) ++ failedPrios vf pol params rest (idx + 1) (nextVal vf pol params idx prev kv)

/-- Reference function: the final `returnVal` of a loop that runs to
completion. -/
def finalVal (vf : Strct → StructP → Bool) (pol : Policy) (params : Strct) :
    List (Priority × HookDef) → Nat → StructP → StructP
  | [], _, prev => prev
  | kv :: rest, idx, prev =>
    finalVal vf pol params rest (idx + 1) (nextVal vf pol params idx prev kv)

/-- Test fixture: a callback returning the nil struct and no error. -/
def nullHook : HookDef := ⟨fun _ => (none, none)⟩

/-- Test fixture: a callback returning a fresh struct with the single field
`test`, ignoring its input. -/
def testHook : HookDef := ⟨fun _ => (some [("test", Val.vStr "test")], none)⟩

/-- Test fixture: the identity callback. -/
def idHook : HookDef := ⟨fun s => (s, none)⟩

/-- Test fixture: the native payload `{test: "test"}`. -/
def pIn : NMap := [("test", NVal.prim (Val.vStr "test"))]

/-- Test fixture: the encoded form of `pIn`. -/
def pStr : Strct := [("test", Val.vStr "test")]

/-- Test fixture: a registry with only `nullHook` at `(onNewLogger, 0)`. -/
def cfgNull : Config := NewHookConfig.Add OnNewLogger 0 nullHook

/-- Test fixture: `nullHook` at priority 0 and `testHook` at priority 1 on
`onNewLogger`. -/
def cfgTwo : Config := (NewHookConfig.Add OnNewLogger 0 nullHook).Add OnNewLogger 1 testHook

/-! Association list lemmas. -/

theorem lookupA_setA_self {α β : Type} [DecidableEq α] (k : α) (v : β) :
    ∀ l : List (α × β), lookupA k (setA k v l) = some v := by
  intro l
  induction l with
  | nil => simp [setA, lookupA]
  | cons kv rest ih =>
    rw [setA]
    by_cases hk : kv.1 = k
    · rw [if_pos hk, lookupA, if_pos rfl]
    · rw [if_neg hk, lookupA, if_neg hk, ih]

theorem lookupA_setA_ne {α β : Type} [DecidableEq α] (k k2 : α) (v : β) (hne : k2 ≠ k) :
    ∀ l : List (α × β), lookupA k2 (setA k v l) = lookupA k2 l := by
  have hne2 : ¬(k = k2) := fun h => hne h.symm
  intro l
  induction l with
  | nil =>
    simp only [setA, lookupA]
    rw [if_neg hne2]
  | cons kv rest ih =>
    rw [setA]
    by_cases hk : kv.1 = k
    · rw [if_pos hk]
      simp only [lookupA]
      rw [if_neg hne2, if_neg (fun h : kv.1 = k2 => hne2 (hk ▸ h))]
    · rw [if_neg hk]
      simp only [lookupA]
      by_cases hk2 : kv.1 = k2
      · rw [if_pos hk2, if_pos hk2]
      · rw [if_neg hk2, if_neg hk2, ih]

theorem setA_eq_self {α β : Type} [DecidableEq α] (k : α) (v : β) :
    ∀ l : List (α × β), lookupA k l = some v → setA k v l = l := by
  intro l
  induction l with
  | nil => intro h; simp [lookupA] at h
  | cons kv rest ih =>
    intro h
    rw [lookupA] at h
    rw [setA]
    by_cases hk : kv.1 = k
    · rw [if_pos hk] at h ⊢
      have hv := Option.some.inj h
      subst hv
      rw [← hk, Prod.mk.eta]
    · rw [if_neg hk] at h ⊢
      rw [ih h]

theorem lookupA_eraseA {α β : Type} [DecidableEq α] (q p : α) :
    ∀ l : List (α × β), lookupA q (eraseA p l) = if q = p then none else lookupA q l := by
  intro l
  induction l with
  | nil => simp [eraseA, lookupA]
  | cons kv rest ih =>
    rw [eraseA]
    by_cases hk : kv.1 = p
    · rw [if_pos hk, ih]
      by_cases hq : q = p
      · rw [if_pos hq, if_pos hq]
      · rw [if_neg hq, if_neg hq, lookupA, if_neg (fun h : kv.1 = q => hq (h ▸ hk))]
    · rw [if_neg hk, lookupA]
      by_cases hq : kv.1 = q
      · rw [if_pos hq, lookupA, if_pos hq, if_neg (fun h : q = p => hk (hq.trans h))]
      · rw [if_neg hq, ih, lookupA, if_neg hq]

theorem lookupA_foldl_eraseA {α β : Type} [DecidableEq α] (q : α) :
    ∀ (rs : List α) (m : List (α × β)),
      lookupA q (rs.foldl (fun m2 p => eraseA p m2) m) =
        if q ∈ rs then none else lookupA q m := by
  intro rs
  induction rs with
  | nil => intro m; simp
  | cons p ps ih =>
    intro m
    rw [List.foldl_cons, ih, lookupA_eraseA]
    by_cases hq : q ∈ p :: ps
    · rw [if_pos hq]
      rcases List.mem_cons.mp hq with h | h
      · by_cases hp : q ∈ ps
        · rw [if_pos hp]
        · rw [if_neg hp, if_pos h]
      · rw [if_pos h]
    · have h1 : q ∉ ps := fun h => hq (List.mem_cons_of_mem _ h)
      have h2 : ¬(q = p) := fun h => hq (h ▸ List.mem_cons_self _ _)
      rw [if_neg hq, if_neg h1, if_neg h2]

theorem lookupA_eq_none_iff {α β : Type} [DecidableEq α] (k : α) :
    ∀ l : List (α × β), lookupA k l = none ↔ k ∉ l.map Prod.fst := by
  intro l
  induction l with
  | nil => simp [lookupA]
  | cons kv rest ih =>
    rw [lookupA]
    by_cases hk : kv.1 = k
    · simp [hk]
    · simp only [if_neg hk, List.map_cons, List.mem_cons, ih]
      constructor
      · intro h hmem
        rcases hmem with h2 | h2
        · exact hk h2.symm
        · exact h h2
      · intro h h2
        exact h (Or.inr h2)

theorem lookupA_isSome_iff {α β : Type} [DecidableEq α] (k : α) (l : List (α × β)) :
    (lookupA k l).isSome = true ↔ k ∈ l.map Prod.fst := by
  rcases hl : lookupA k l with _ | v
  · simp only [Option.isSome_none, Bool.false_eq_true, false_iff]
    exact (lookupA_eq_none_iff k l).mp hl
  · simp only [Option.isSome_some, true_iff]
    by_contra hmem
    rw [(lookupA_eq_none_iff k l).mpr hmem] at hl
    exact Option.noConfusion hl

theorem mapfst_setA {α β : Type} [DecidableEq α] (k : α) (v : β) :
    ∀ l : List (α × β), (setA k v l).map Prod.fst =
      if (lookupA k l).isSome then l.map Prod.fst else l.map Prod.fst ++ [k] := by
  intro l
  induction l with
  | nil => simp [setA, lookupA]
  | cons kv rest ih =>
    rw [setA, lookupA]
    by_cases hk : kv.1 = k
    · rw [if_pos hk, if_pos hk]
      simp [hk]
    · rw [if_neg hk, if_neg hk, List.map_cons, ih]
      by_cases hs : (lookupA k rest).isSome
      · rw [if_pos hs, if_pos hs, List.map_cons]
      · rw [if_neg hs, if_neg hs, List.map_cons, List.cons_append]

/-! Sorting lemmas. -/

instance : IsTotal (Priority × HookDef) (fun a b => a.1 ≤ b.1) :=
  ⟨fun a b => Int.le_total a.1 b.1⟩

instance : IsTrans (Priority × HookDef) (fun a b => a.1 ≤ b.1) :=
  ⟨fun _ _ _ h1 h2 => le_trans h1 h2⟩

theorem sortByPrio_perm (l : List (Priority × HookDef)) : List.Perm (sortByPrio l) l :=
  List.perm_insertionSort _ l

theorem sortByPrio_pairwise_le (l : List (Priority × HookDef)) :
    (sortByPrio l).Pairwise (fun a b => a.1 ≤ b.1) :=
  List.sorted_insertionSort _ l

theorem sortByPrio_map_fst_perm (l : List (Priority × HookDef)) :
    List.Perm ((sortByPrio l).map Prod.fst) (l.map Prod.fst) :=
  (sortByPrio_perm l).map Prod.fst

theorem sortByPrio_strict (l : List (Priority × HookDef))
    (hnd : (l.map Prod.fst).Nodup) :
    ((sortByPrio l).map Prod.fst).Pairwise (fun a b => a < b) := by
  have hnd2 : ((sortByPrio l).map Prod.fst).Nodup :=
    (sortByPrio_map_fst_perm l).nodup_iff.mpr hnd
  have hle : ((sortByPrio l).map Prod.fst).Pairwise (fun a b => a ≤ b) :=
    List.Pairwise.map Prod.fst (fun a b h => h) (sortByPrio_pairwise_le l)
  exact (hle.and hnd2).imp (fun h => lt_of_le_of_ne h.1 h.2)

/-! Unfolding lemmas for `runCore`, one per exit path. -/

theorem runCore_nilCtx (vf : Strct → StructP → Bool)
    (hooks0 : List (Typ × List (Priority × HookDef))) (args : NMap) (t : Typ) (pol : Policy) :
    runCore vf hooks0 true args t pol = ⟨none, some GErr.nilContext, hooks0, []⟩ := rfl

theorem runCore_castFail (vf : Strct → StructP → Bool)
    (hooks0 : List (Typ × List (Priority × HookDef))) (args : NMap) (t : Typ) (pol : Policy)
    (henc : encodeParams (castToPrimitiveTypes args) = none) :
    runCore vf hooks0 false args t pol = ⟨none, some GErr.castFailed, hooks0, []⟩ := by
  simp [runCore, henc]

theorem runCore_early (vf : Strct → StructP → Bool)
    (hooks0 : List (Typ × List (Priority × HookDef))) (args : NMap) (t : Typ) (pol : Policy)
    (params : Strct) (r : NMap) (cs : List (Priority × StructP))
    (henc : encodeParams (castToPrimitiveTypes args) = some params)
    (hloop : runLoop vf pol params (castToPrimitiveTypes args)
      (sortByPrio ((lookupA t hooks0).getD [])) 0 ⟨some [], [], []⟩ = LoopRes.early r cs) :
    runCore vf hooks0 false args t pol = ⟨some r, none, hooks0, cs⟩ := by
  simp [runCore, henc, hloop]

theorem runCore_done (vf : Strct → StructP → Bool)
    (hooks0 : List (Typ × List (Priority × HookDef))) (args : NMap) (t : Typ) (pol : Policy)
    (params : Strct) (st : LoopSt)
    (henc : encodeParams (castToPrimitiveTypes args) = some params)
    (hloop : runLoop vf pol params (castToPrimitiveTypes args)
      (sortByPrio ((lookupA t hooks0).getD [])) 0 ⟨some [], [], []⟩ = LoopRes.done st) :
    runCore vf hooks0 false args t pol =
      ⟨some (asMapP st.returnVal), none,
       (if (lookupA t hooks0).isSome then
          setA t (st.removeList.foldl (fun m p => eraseA p m)
            ((lookupA t hooks0).getD [])) hooks0
        else hooks0),
       st.calls⟩ := by
  simp [runCore, henc, hloop]

/-! Lemmas connecting `runLoop` to the reference functions. -/

theorem chainCalls_map_fst (vf : Strct → StructP → Bool) (pol : Policy) (params : Strct) :
    ∀ (hs : List (Priority × HookDef)) (idx : Nat) (prev : StructP),
      (chainCalls vf pol params hs idx prev).map Prod.fst = hs.map Prod.fst := by
  intro hs
  induction hs with
  | nil => intro idx prev; rw [chainCalls]; rfl
  | cons kv rest ih =>
    intro idx prev
    rw [chainCalls, List.map_cons, List.map_cons, ih]

theorem failedPrios_eq_nil (vf : Strct → StructP → Bool) (pol : Policy) (params : Strct)
    (hpol : pol ≠ Remove) :
    ∀ (hs : List (Priority × HookDef)) (idx : Nat) (prev : StructP),
      failedPrios vf pol params hs idx prev = [] := by
  intro hs
  induction hs with
  | nil => intro idx prev; rw [failedPrios]
  | cons kv rest ih =>
    intro idx prev
    rw [failedPrios, ih]
    simp only [List.append_nil]
    split_ifs <;> simp_all

/-- The central characterization: a loop that runs to completion produces
exactly the reference final value, removal schedule and invocation trace. -/
theorem runLoop_done_spec (vf : Strct → StructP → Bool) (pol : Policy) (params : Strct)
    (cargs : NMap) :
    ∀ (hs : List (Priority × HookDef)) (idx : Nat) (st st' : LoopSt),
      runLoop vf pol params cargs hs idx st = LoopRes.done st' →
      st' = ⟨finalVal vf pol params hs idx st.returnVal,
             st.removeList ++ failedPrios vf pol params hs idx st.returnVal,
             st.calls ++ chainCalls vf pol params hs idx st.returnVal⟩ := by
  intro hs
  induction hs with
  | nil =>
    intro idx st st' h
    rw [runLoop] at h
    cases h
    simp [finalVal, failedPrios, chainCalls]
  | cons kv rest ih =>
    intro idx st st' h
    rw [runLoop] at h
    rw [finalVal, failedPrios, chainCalls, nextVal]
    by_cases h1 : vf params ((kv.2.fn (if idx = 0 then some params else st.returnVal)).1) = true
        ∨ pol = PassDown
    · simp only [if_pos h1] at h ⊢
      rw [ih _ _ _ h]
      simp
    · simp only [if_neg h1] at h ⊢
      by_cases h2 : pol = Ignore
      · simp only [if_pos h2] at h ⊢
        rw [ih _ _ _ h]
        simp
      · simp only [if_neg h2] at h ⊢
        by_cases h3 : pol = Abort
        · simp only [if_pos h3] at h
          exact LoopRes.noConfusion h
        · simp only [if_neg h3] at h ⊢
          by_cases h4 : pol = Remove
          · simp only [if_pos h4] at h ⊢
            rw [ih _ _ _ h]
            simp
          · simp only [if_neg h4] at h ⊢
            by_cases h5 : pol = PassDown
            · simp only [if_pos h5] at h ⊢
              rw [ih _ _ _ h]
              simp
            · simp only [if_neg h5] at h ⊢
              rw [ih _ _ _ h]
              simp

/-- Every policy other than `Abort` drives the loop to completion. -/
theorem runLoop_done_of_ne_abort (vf : Strct → StructP → Bool) (pol : Policy) (params : Strct)
    (cargs : NMap) (hpol : pol ≠ Abort) :
    ∀ (hs : List (Priority × HookDef)) (idx : Nat) (st : LoopSt),
      ∃ st', runLoop vf pol params cargs hs idx st = LoopRes.done st' := by
  intro hs
  induction hs with
  | nil => intro idx st; exact ⟨st, rfl⟩
  | cons kv rest ih =>
    intro idx st
    rw [runLoop]
    by_cases h1 : vf params ((kv.2.fn (if idx = 0 then some params else st.returnVal)).1) = true
        ∨ pol = PassDown
    · simp only [if_pos h1]; exact ih _ _
    · simp only [if_neg h1]
      by_cases h2 : pol = Ignore
      · simp only [if_pos h2]; exact ih _ _
      · simp only [if_neg h2, if_neg hpol]
        by_cases h4 : pol = Remove
        · simp only [if_pos h4]; exact ih _ _
        · simp only [if_neg h4]
          by_cases h5 : pol = PassDown
          · simp only [if_pos h5]; exact ih _ _
          · simp only [if_neg h5]; exact ih _ _

/-- An early return carries a trace that is a strict prefix stage of the
reference trace: the calls already made, the failing one included. -/
theorem runLoop_early_calls (vf : Strct → StructP → Bool) (pol : Policy) (params : Strct)
    (cargs : NMap) :
    ∀ (hs : List (Priority × HookDef)) (idx : Nat) (st : LoopSt) (r : NMap)
      (cs : List (Priority × StructP)),
      runLoop vf pol params cargs hs idx st = LoopRes.early r cs →
      ∃ k, cs = st.calls ++ (chainCalls vf pol params hs idx st.returnVal).take k := by
  intro hs
  induction hs with
  | nil =>
    intro idx st r cs h
    rw [runLoop] at h
    exact LoopRes.noConfusion h
  | cons kv rest ih =>
    intro idx st r cs h
    rw [runLoop] at h
    by_cases h1 : vf params ((kv.2.fn (if idx = 0 then some params else st.returnVal)).1) = true
        ∨ pol = PassDown
    · simp only [if_pos h1] at h
      obtain ⟨k, hk⟩ := ih _ _ _ _ h
      refine ⟨k + 1, ?_⟩
      rw [hk]
      simp only [chainCalls, nextVal, if_pos h1, List.take_succ_cons]
      simp
    · simp only [if_neg h1] at h
      by_cases h2 : pol = Ignore
      · simp only [if_pos h2] at h
        obtain ⟨k, hk⟩ := ih _ _ _ _ h
        refine ⟨k + 1, ?_⟩
        rw [hk]
        simp only [chainCalls, nextVal, if_neg h1, if_pos h2, List.take_succ_cons]
        simp
      · simp only [if_neg h2] at h
        by_cases h3 : pol = Abort
        · simp only [if_pos h3] at h
          cases h
          refine ⟨1, ?_⟩
          simp [chainCalls]
        · simp only [if_neg h3] at h
          by_cases h4 : pol = Remove
          · simp only [if_pos h4] at h
            obtain ⟨k, hk⟩ := ih _ _ _ _ h
            refine ⟨k + 1, ?_⟩
            rw [hk]
            simp only [chainCalls, nextVal, if_neg h1, if_neg h2, if_neg h3, if_pos h4,
              List.take_succ_cons]
            simp
          · simp only [if_neg h4] at h
            by_cases h5 : pol = PassDown
            · simp only [if_pos h5] at h
              obtain ⟨k, hk⟩ := ih _ _ _ _ h
              refine ⟨k + 1, ?_⟩
              rw [hk]
              simp only [chainCalls, nextVal, if_neg h1, if_neg h2, if_neg h3, if_neg h4,
                if_pos h5, List.take_succ_cons]
              simp
            · simp only [if_neg h5] at h
              obtain ⟨k, hk⟩ := ih _ _ _ _ h
              refine ⟨k + 1, ?_⟩
              rw [hk]
              simp only [chainCalls, nextVal, if_neg h1, if_neg h2, if_neg h3, if_neg h4,
                if_neg h5, List.take_succ_cons]
              simp

/-- Outside the four-member enumeration every step behaves exactly as under
`PassDown`. -/
theorem runLoop_unknown_pol_eq (vf : Strct → StructP → Bool) (params : Strct) (cargs : NMap)
    (pol : Policy) (hp1 : pol ≠ PassDown) (hp2 : pol ≠ Ignore) (hp3 : pol ≠ Abort)
    (hp4 : pol ≠ Remove) :
    ∀ (hs : List (Priority × HookDef)) (idx : Nat) (st : LoopSt),
      runLoop vf pol params cargs hs idx st = runLoop vf PassDown params cargs hs idx st := by
  intro hs
  induction hs with
  | nil => intro idx st; rw [runLoop, runLoop]
  | cons kv rest ih =>
    intro idx st
    rw [runLoop, runLoop]
    by_cases hv : vf params ((kv.2.fn (if idx = 0 then some params else st.returnVal)).1) = true
    · rw [if_pos (Or.inl hv), if_pos (Or.inl hv), ih]
    · have hl : ¬(vf params ((kv.2.fn (if idx = 0 then some params else st.returnVal)).1) = true
          ∨ pol = PassDown) := by
        intro hc
        rcases hc with hc | hc
        · exact hv hc
        · exact hp1 hc
      rw [if_neg hl, if_pos (Or.inr rfl), if_neg hp2, if_neg hp3, if_neg hp4, if_neg hp1, ih]

/-! Claim theorems. -/

/-- C1, counterexample: with zero registered callbacks for the hook type, Run
does NOT return the payload unchanged — at payload {test: "test"}, hook type
onNewLogger on the empty registry, and policy Ignore, it returns the empty
native map with no error, because returnVal starts as the empty struct (source
line 132) and is returned as is (line 203). -/
theorem c1_counterexample :
    (lookupA OnNewLogger NewHookConfig.hooks).getD [] = [] ∧
    (NewHookConfig.Run false pIn OnNewLogger Ignore).ret = some [] ∧
    (NewHookConfig.Run false pIn OnNewLogger Ignore).ret ≠ some pIn ∧
    (NewHookConfig.Run false pIn OnNewLogger Ignore).err = none :=
  ⟨rfl, rfl, by decide, rfl⟩

/-- C1 (amended): for every payload that encodes successfully, every policy and
every hookType with zero registered callbacks, Run returns the EMPTY native
map with no error (equal to the payload only when the payload is empty); the
registry is unchanged and no callback is invoked. -/
theorem run_no_hooks_returns_empty (h : Config) (args : NMap) (t : Typ) (pol : Policy)
    (hzero : (lookupA t h.hooks).getD [] = [])
    (henc : encodeParams (castToPrimitiveTypes args) ≠ none) :
    (h.Run false args t pol).ret = some [] ∧ (h.Run false args t pol).err = none ∧
    (h.Run false args t pol).hooksAfter = h.hooks ∧ (h.Run false args t pol).calls = [] := by
  obtain ⟨params, hp⟩ := Option.ne_none_iff_exists'.mp henc
  have hloop : runLoop Verify pol params (castToPrimitiveTypes args)
      (sortByPrio ((lookupA t h.hooks).getD [])) 0 ⟨some [], [], []⟩ =
      LoopRes.done ⟨some [], [], []⟩ := by
    rw [hzero]
    rfl
  have hrun := runCore_done Verify h.hooks args t pol params ⟨some [], [], []⟩ hp hloop
  rw [Config.Run, hrun]
  refine ⟨rfl, rfl, ?_, rfl⟩
  rcases hl : lookupA t h.hooks with _ | v
  · simp [hl]
  · simp [hl, setA_eq_self t v h.hooks hl]

/-- C1 witness: the amended theorem at the empty registry, payload
{test: "test"} and policy Abort. -/
theorem run_no_hooks_returns_empty_witness :
    ((lookupA OnNewLogger NewHookConfig.hooks).getD [] = [] ∧
      encodeParams (castToPrimitiveTypes pIn) ≠ none) ∧
    ((NewHookConfig.Run false pIn OnNewLogger Abort).ret = some [] ∧
      (NewHookConfig.Run false pIn OnNewLogger Abort).err = none ∧
      (NewHookConfig.Run false pIn OnNewLogger Abort).hooksAfter = NewHookConfig.hooks ∧
      (NewHookConfig.Run false pIn OnNewLogger Abort).calls = []) :=
  ⟨⟨rfl, by decide⟩,
   run_no_hooks_returns_empty NewHookConfig pIn OnNewLogger Abort rfl (by decide)⟩

/-- C2, counterexample: under PassDown a single callback returning the nil
struct makes the final adopted value nil, and Run then returns the EMPTY
native map, not the initial payload unchanged. -/
theorem c2_counterexample :
    (cfgNull.Run false pIn OnNewLogger PassDown).ret = some [] ∧
    (cfgNull.Run false pIn OnNewLogger PassDown).err = none ∧
    (cfgNull.Run false pIn OnNewLogger PassDown).ret ≠ some pIn :=
  ⟨rfl, rfl, by decide⟩

/-- C2 (amended): whenever Run returns without error the returned native map
is non-nil; and whenever the final adopted value of the chain is the nil
struct, Run returns the EMPTY native map (the nil struct decodes to the empty
map), not the initial payload. -/
theorem run_result_never_null :
    (∀ (h : Config) (c : Bool) (args : NMap) (t : Typ) (pol : Policy),
        (h.Run c args t pol).err = none → ((h.Run c args t pol).ret).isSome = true)
  ∧ (∀ (h : Config) (args : NMap) (t : Typ) (pol : Policy) (params : Strct) (st : LoopSt),
        encodeParams (castToPrimitiveTypes args) = some params →
        runLoop Verify pol params (castToPrimitiveTypes args)
          (sortByPrio ((lookupA t h.hooks).getD [])) 0 ⟨some [], [], []⟩ = LoopRes.done st →
        st.returnVal = none →
        (h.Run false args t pol).ret = some []) := by
  constructor
  · intro h c args t pol herr
    rw [Config.Run] at herr ⊢
    cases c with
    | true =>
      rw [runCore_nilCtx] at herr
      exact Option.noConfusion herr
    | false =>
      rcases henc : encodeParams (castToPrimitiveTypes args) with _ | params
      · rw [runCore_castFail Verify h.hooks args t pol henc] at herr
        exact Option.noConfusion herr
      · rcases hloop : runLoop Verify pol params (castToPrimitiveTypes args)
            (sortByPrio ((lookupA t h.hooks).getD [])) 0 ⟨some [], [], []⟩ with ⟨r, cs⟩ | ⟨st⟩
        · rw [runCore_early Verify h.hooks args t pol params r cs henc hloop]
          rfl
        · rw [runCore_done Verify h.hooks args t pol params st henc hloop]
          rfl
  · intro h args t pol params st henc hloop hnull
    rw [Config.Run, runCore_done Verify h.hooks args t pol params st henc hloop]
    show some (asMapP st.returnVal) = some []
    rw [hnull]
    rfl

/-- C2 witness: both parts at the registry holding only the nil-returning
callback, payload {test: "test"} and policy PassDown. -/
theorem run_result_never_null_witness :
    ((cfgNull.Run false pIn OnNewLogger PassDown).err = none ∧
      encodeParams (castToPrimitiveTypes pIn) = some pStr ∧
      runLoop Verify PassDown pStr (castToPrimitiveTypes pIn)
        (sortByPrio ((lookupA OnNewLogger cfgNull.hooks).getD [])) 0 ⟨some [], [], []⟩ =
        LoopRes.done ⟨none, [], [(0, some pStr)]⟩) ∧
    ((cfgNull.Run false pIn OnNewLogger PassDown).ret.isSome = true ∧
      (cfgNull.Run false pIn OnNewLogger PassDown).ret = some []) :=
  ⟨⟨rfl, rfl, rfl⟩,
   run_result_never_null.1 cfgNull false pIn OnNewLogger PassDown rfl,
   run_result_never_null.2 cfgNull pIn OnNewLogger PassDown pStr
     ⟨none, [], [(0, some pStr)]⟩ rfl rfl rfl⟩

/-- C3: Verify(input, output) is true iff every top-level key of the output is
also a top-level key of the input (missing keys permitted); values are never
compared (changing every value leaves the verdict unchanged); and
Verify(input, null) is false for every input. -/
theorem verify_spec :
    (∀ (input output : Strct),
        (Verify input (some output) = true ↔
          ∀ k ∈ output.map Prod.fst, k ∈ input.map Prod.fst))
  ∧ (∀ input : Strct, Verify input none = false)
  ∧ (∀ (input output : Strct) (f : Val → Val),
        Verify input (some (output.map (fun kv => (kv.1, f kv.2)))) =
          Verify input (some output)) := by
  refine ⟨?_, fun _ => rfl, ?_⟩
  · intro input output
    simp only [Verify, List.all_eq_true, lookupA_isSome_iff]
    constructor
    · intro hall k hk
      obtain ⟨kv, hkv, rfl⟩ := List.mem_map.mp hk
      exact hall kv hkv
    · intro hall kv hkv
      exact hall kv.1 (List.mem_map_of_mem Prod.fst hkv)
  · intro input output f
    simp only [Verify, List.all_map]
    rfl

/-- C3 witness: the characterization at input {test: "test"} and an output
with the same single key but a different value. -/
theorem verify_spec_witness :
    (Verify pStr (some [("test", Val.vNull)]) = true ↔
      ∀ k ∈ ([("test", Val.vNull)] : Strct).map Prod.fst, k ∈ pStr.map Prod.fst) ∧
    Verify pStr none = false :=
  ⟨verify_spec.1 pStr [("test", Val.vNull)], verify_spec.2.1 pStr⟩

/-- C4, counterexample to "returns nativeArgs unchanged": line 110 reassigns
args to its casted form before the Abort branch at line 177 returns it, so a
payload holding a host-specific duration value comes back normalized, not
unchanged (the rest of the C4 behavior is proved in the amended theorem). -/
theorem c4_counterexample :
    (cfgNull.Run false [("d", NVal.duration 5)] OnNewLogger Abort).err = none ∧
    (cfgNull.Run false [("d", NVal.duration 5)] OnNewLogger Abort).ret
      = some [("d", NVal.prim (Val.vNum 5))] ∧
    (cfgNull.Run false [("d", NVal.duration 5)] OnNewLogger Abort).ret
      ≠ some [("d", NVal.duration 5)] :=
  ⟨rfl, rfl, by decide⟩

/-- C4 (amended): under Abort, at the first callback whose output fails
verification the loop stops immediately — the trace gains only that call and
no higher-priority callback runs — returning the casted nativeArgs when the
failure is at index 0 (identical to nativeArgs whenever its values are already
primitive) and the decoded prior returnVal otherwise; Run then surfaces that
value with a nil error (the callback error is discarded) and an untouched
registry. -/
theorem run_abort_semantics :
    (∀ (kv : Priority × HookDef) (rest : List (Priority × HookDef)) (idx : Nat) (st : LoopSt)
        (params : Strct) (cargs : NMap),
        Verify params ((kv.2.fn (if idx = 0 then some params else st.returnVal)).1) = false →
        runLoop Verify Abort params cargs (kv :: rest) idx st =
          LoopRes.early (if idx = 0 then cargs else asMapP st.returnVal)
            (st.calls ++ [(kv.1, if idx = 0 then some params else st.returnVal)]))
  ∧ (∀ (h : Config) (args : NMap) (t : Typ) (params : Strct) (r : NMap)
        (cs : List (Priority × StructP)),
        encodeParams (castToPrimitiveTypes args) = some params →
        runLoop Verify Abort params (castToPrimitiveTypes args)
          (sortByPrio ((lookupA t h.hooks).getD [])) 0 ⟨some [], [], []⟩ = LoopRes.early r cs →
        h.Run false args t Abort = ⟨some r, none, h.hooks, cs⟩) := by
  constructor
  · intro kv rest idx st params cargs hfail
    rw [runLoop]
    have h1 : ¬(Verify params ((kv.2.fn (if idx = 0 then some params
        else st.returnVal)).1) = true ∨ Abort = PassDown) := by
      intro hc
      rcases hc with hc | hc
      · rw [hfail] at hc; exact Bool.noConfusion hc
      · exact absurd hc (by decide)
    rw [if_neg h1, if_neg (by decide : ¬(Abort = Ignore)), if_pos rfl]
  · intro h args t params r cs henc hloop
    rw [Config.Run]
    exact runCore_early Verify h.hooks args t Abort params r cs henc hloop

/-- C4 witness: the failing step and the lift at the registry holding only the
nil-returning callback, payload {test: "test"}. -/
theorem run_abort_semantics_witness :
    (Verify pStr ((nullHook.fn (some pStr)).1) = false ∧
      runLoop Verify Abort pStr pIn [(0, nullHook)] 0 ⟨some [], [], []⟩ =
        LoopRes.early pIn [(0, some pStr)]) ∧
    (encodeParams (castToPrimitiveTypes pIn) = some pStr ∧
      runLoop Verify Abort pStr (castToPrimitiveTypes pIn)
        (sortByPrio ((lookupA OnNewLogger cfgNull.hooks).getD [])) 0 ⟨some [], [], []⟩ =
        LoopRes.early pIn [(0, some pStr)] ∧
      cfgNull.Run false pIn OnNewLogger Abort = ⟨some pIn, none, cfgNull.hooks, [(0, some pStr)]⟩) :=
  ⟨⟨rfl, run_abort_semantics.1 (0, nullHook) [] 0 ⟨some [], [], []⟩ pStr pIn rfl⟩,
   rfl, rfl,
   run_abort_semantics.2 cfgNull pIn OnNewLogger pStr pIn [(0, some pStr)] rfl rfl⟩

/-- C7: under PassDown verification never rejects a step — every callback
output, the nil struct and new-key outputs included, is adopted as the next
returnVal without entering the policy switch (the step is unconditional in the
callback output) — and a single callback returning the nil struct yields the
empty native map as the final result with no error. -/
theorem run_passdown_adopts :
    (∀ (kv : Priority × HookDef) (rest : List (Priority × HookDef)) (idx : Nat) (st : LoopSt)
        (params : Strct) (cargs : NMap),
        runLoop Verify PassDown params cargs (kv :: rest) idx st =
          runLoop Verify PassDown params cargs rest (idx + 1)
            ⟨(kv.2.fn (if idx = 0 then some params else st.returnVal)).1, st.removeList,
             st.calls ++ [(kv.1, if idx = 0 then some params else st.returnVal)]⟩)
  ∧ (∀ (h : Config) (args : NMap) (t : Typ) (p : Priority) (hd : HookDef) (params : Strct),
        lookupA t h.hooks = some [(p, hd)] →
        (hd.fn (some params)).1 = none →
        encodeParams (castToPrimitiveTypes args) = some params →
        (h.Run false args t PassDown).ret = some [] ∧
        (h.Run false args t PassDown).err = none) := by
  constructor
  · intro kv rest idx st params cargs
    rw [runLoop, if_pos (Or.inr rfl)]
  · intro h args t p hd params hlk hnull henc
    have hsort : sortByPrio ((lookupA t h.hooks).getD []) = [(p, hd)] := by
      rw [hlk]
      rfl
    have hloop : runLoop Verify PassDown params (castToPrimitiveTypes args)
        (sortByPrio ((lookupA t h.hooks).getD [])) 0 ⟨some [], [], []⟩ =
        LoopRes.done ⟨none, [], [(p, some params)]⟩ := by
      rw [hsort, runLoop, if_pos (Or.inr rfl)]
      simp [runLoop, hnull]
    have hrun := runCore_done Verify h.hooks args t PassDown params
      ⟨none, [], [(p, some params)]⟩ henc hloop
    rw [Config.Run, hrun]
    exact ⟨rfl, rfl⟩

/-- C7 witness: the unconditional adoption step and the single-nil-callback
result at the registry holding only the nil-returning callback. -/
theorem run_passdown_adopts_witness :
    (runLoop Verify PassDown pStr pIn [(0, nullHook)] 0 ⟨some [], [], []⟩ =
      runLoop Verify PassDown pStr pIn [] 1 ⟨none, [], [(0, some pStr)]⟩) ∧
    (lookupA OnNewLogger cfgNull.hooks = some [(0, nullHook)] ∧
      (nullHook.fn (some pStr)).1 = none ∧
      encodeParams (castToPrimitiveTypes pIn) = some pStr ∧
      (cfgNull.Run false pIn OnNewLogger PassDown).ret = some [] ∧
      (cfgNull.Run false pIn OnNewLogger PassDown).err = none) :=
  ⟨run_passdown_adopts.1 (0, nullHook) [] 0 ⟨some [], [], []⟩ pStr pIn,
   rfl, rfl, rfl,
   (run_passdown_adopts.2 cfgNull pIn OnNewLogger 0 nullHook pStr rfl rfl rfl).1,
   (run_passdown_adopts.2 cfgNull pIn OnNewLogger 0 nullHook pStr rfl rfl rfl).2⟩

/-- C10: for every policy value outside the enumeration {PassDown, Ignore,
Abort, Remove}, a verification-failing callback output is nevertheless adopted
as the new returnVal (the switch default branch), and the whole Run behaves
exactly as under PassDown. -/
theorem run_unknown_policy :
    (∀ (pol : Policy), pol ≠ PassDown → pol ≠ Ignore → pol ≠ Abort → pol ≠ Remove →
      ∀ (kv : Priority × HookDef) (rest : List (Priority × HookDef)) (idx : Nat) (st : LoopSt)
        (params : Strct) (cargs : NMap),
        Verify params ((kv.2.fn (if idx = 0 then some params else st.returnVal)).1) = false →
        runLoop Verify pol params cargs (kv :: rest) idx st =
          runLoop Verify pol params cargs rest (idx + 1)
            ⟨(kv.2.fn (if idx = 0 then some params else st.returnVal)).1, st.removeList,
             st.calls ++ [(kv.1, if idx = 0 then some params else st.returnVal)]⟩)
  ∧ (∀ (pol : Policy), pol ≠ PassDown → pol ≠ Ignore → pol ≠ Abort → pol ≠ Remove →
      ∀ (h : Config) (c : Bool) (args : NMap) (t : Typ),
        h.Run c args t pol = h.Run c args t PassDown) := by
  constructor
  · intro pol hp1 hp2 hp3 hp4 kv rest idx st params cargs hfail
    rw [runLoop]
    have h1 : ¬(Verify params ((kv.2.fn (if idx = 0 then some params
        else st.returnVal)).1) = true ∨ pol = PassDown) := by
      intro hc
      rcases hc with hc | hc
      · rw [hfail] at hc; exact Bool.noConfusion hc
      · exact hp1 hc
    rw [if_neg h1, if_neg hp2, if_neg hp3, if_neg hp4, if_neg hp1]
  · intro pol hp1 hp2 hp3 hp4 h c args t
    rw [Config.Run, Config.Run]
    cases c with
    | true => rw [runCore_nilCtx, runCore_nilCtx]
    | false =>
      rcases henc : encodeParams (castToPrimitiveTypes args) with _ | params
      · rw [runCore_castFail Verify h.hooks args t pol henc,
          runCore_castFail Verify h.hooks args t PassDown henc]
      · have hle := runLoop_unknown_pol_eq Verify params (castToPrimitiveTypes args) pol
          hp1 hp2 hp3 hp4 (sortByPrio ((lookupA t h.hooks).getD [])) 0 ⟨some [], [], []⟩
        rcases hloop : runLoop Verify PassDown params (castToPrimitiveTypes args)
            (sortByPrio ((lookupA t h.hooks).getD [])) 0 ⟨some [], [], []⟩ with ⟨r, cs⟩ | ⟨st⟩
        · rw [runCore_early Verify h.hooks args t pol params r cs henc (hle.trans hloop),
            runCore_early Verify h.hooks args t PassDown params r cs henc hloop]
        · rw [runCore_done Verify h.hooks args t pol params st henc (hle.trans hloop),
            runCore_done Verify h.hooks args t PassDown params st henc hloop]

/-- C10 witness: both parts at the out-of-enumeration policy value 7. -/
theorem run_unknown_policy_witness :
    ((7 : Policy) ≠ PassDown ∧ (7 : Policy) ≠ Ignore ∧ (7 : Policy) ≠ Abort ∧
      (7 : Policy) ≠ Remove ∧
      Verify pStr ((nullHook.fn (some pStr)).1) = false ∧
      runLoop Verify 7 pStr pIn [(0, nullHook)] 0 ⟨some [], [], []⟩ =
        runLoop Verify 7 pStr pIn [] 1 ⟨none, [], [(0, some pStr)]⟩) ∧
    cfgNull.Run false pIn OnNewLogger 7 = cfgNull.Run false pIn OnNewLogger PassDown :=
  ⟨⟨by decide, by decide, by decide, by decide, rfl,
    run_unknown_policy.1 7 (by decide) (by decide) (by decide) (by decide)
      (0, nullHook) [] 0 ⟨some [], [], []⟩ pStr pIn rfl⟩,
   run_unknown_policy.2 7 (by decide) (by decide) (by decide) (by decide)
     cfgNull false pIn OnNewLogger⟩

/-- C5: after a completed Run the registry equals the registry before minus
exactly the priorities that failed verification under Remove (the reference
removal schedule), with the whole snapshot still invoked before any deletion
is applied; under every policy other than Remove the registry is unchanged,
and entries whose priorities are not in the removal schedule always remain. -/
theorem run_registry_frame :
    (∀ (h : Config) (c : Bool) (args : NMap) (t : Typ) (pol : Policy), pol ≠ Remove →
        (h.Run c args t pol).hooksAfter = h.hooks)
  ∧ (∀ (h : Config) (args : NMap) (t : Typ) (inner : List (Priority × HookDef))
        (params : Strct),
        lookupA t h.hooks = some inner →
        encodeParams (castToPrimitiveTypes args) = some params →
        ((h.Run false args t Remove).calls.map Prod.fst = (sortByPrio inner).map Prod.fst
        ∧ (∀ q, q ∈ failedPrios Verify Remove params (sortByPrio inner) 0 (some []) →
            lookupA q ((lookupA t (h.Run false args t Remove).hooksAfter).getD []) = none)
        ∧ (∀ q, q ∉ failedPrios Verify Remove params (sortByPrio inner) 0 (some []) →
            lookupA q ((lookupA t (h.Run false args t Remove).hooksAfter).getD []) =
              lookupA q inner)
        ∧ (∀ t2, t2 ≠ t → lookupA t2 (h.Run false args t Remove).hooksAfter =
            lookupA t2 h.hooks))) := by
  constructor
  · intro h c args t pol hpol
    rw [Config.Run]
    cases c with
    | true => rw [runCore_nilCtx]
    | false =>
      rcases henc : encodeParams (castToPrimitiveTypes args) with _ | params
      · rw [runCore_castFail Verify h.hooks args t pol henc]
      · rcases hloop : runLoop Verify pol params (castToPrimitiveTypes args)
            (sortByPrio ((lookupA t h.hooks).getD [])) 0 ⟨some [], [], []⟩ with ⟨r, cs⟩ | ⟨st⟩
        · rw [runCore_early Verify h.hooks args t pol params r cs henc hloop]
        · rw [runCore_done Verify h.hooks args t pol params st henc hloop]
          have hspec := runLoop_done_spec Verify pol params
            (castToPrimitiveTypes args) _ _ _ _ hloop
          have hrl : st.removeList = [] := by
            rw [hspec]
            show [] ++ failedPrios Verify pol params _ 0 (some []) = []
            rw [failedPrios_eq_nil Verify pol params hpol]
            rfl
          show (if (lookupA t h.hooks).isSome then
              setA t (st.removeList.foldl (fun m p => eraseA p m)
                ((lookupA t h.hooks).getD [])) h.hooks
            else h.hooks) = h.hooks
          rw [hrl]
          rcases hl : lookupA t h.hooks with _ | v
          · simp [hl]
          · simp [hl, setA_eq_self t v h.hooks hl]
  · intro h args t inner params hlk henc
    have hgd : (lookupA t h.hooks).getD [] = inner := by
      rw [hlk]
      rfl
    obtain ⟨st, hloop⟩ := runLoop_done_of_ne_abort Verify Remove params
      (castToPrimitiveTypes args) (by decide)
      (sortByPrio ((lookupA t h.hooks).getD [])) 0 ⟨some [], [], []⟩
    have hspec := runLoop_done_spec Verify Remove params (castToPrimitiveTypes args) _ _ _ _ hloop
    have hrun := runCore_done Verify h.hooks args t Remove params st henc hloop
    rw [hgd] at hspec
    have hcalls : st.calls = chainCalls Verify Remove params (sortByPrio inner) 0 (some []) := by
      rw [hspec]
      rfl
    have hrem : st.removeList =
        failedPrios Verify Remove params (sortByPrio inner) 0 (some []) := by
      rw [hspec]
      rfl
    have hha : (h.Run false args t Remove).hooksAfter =
        setA t (st.removeList.foldl (fun m p => eraseA p m) inner) h.hooks := by
      rw [Config.Run, hrun, hlk]
      rfl
    refine ⟨?_, ?_, ?_, ?_⟩
    · rw [Config.Run, hrun]
      show st.calls.map Prod.fst = (sortByPrio inner).map Prod.fst
      rw [hcalls, chainCalls_map_fst]
    · intro q hq
      rw [hha, lookupA_setA_self, Option.getD_some, lookupA_foldl_eraseA, hrem, if_pos hq]
    · intro q hq
      rw [hha, lookupA_setA_self, Option.getD_some, lookupA_foldl_eraseA, hrem, if_neg hq]
    · intro t2 ht2
      rw [hha, lookupA_setA_ne t t2 _ ht2]

/-- C5 witness: the frame property under Ignore and the Remove bookkeeping on
the two-callback registry with the empty payload (both callbacks fail there,
priority 0 is scheduled and deleted). -/
theorem run_registry_frame_witness :
    ((Ignore : Policy) ≠ Remove ∧
      (cfgTwo.Run false [] OnNewLogger Ignore).hooksAfter = cfgTwo.hooks) ∧
    (lookupA OnNewLogger cfgTwo.hooks = some [(0, nullHook), (1, testHook)] ∧
      encodeParams (castToPrimitiveTypes ([] : NMap)) = some [] ∧
      (cfgTwo.Run false [] OnNewLogger Remove).calls.map Prod.fst =
        (sortByPrio [(0, nullHook), (1, testHook)]).map Prod.fst ∧
      (0 : Priority) ∈ failedPrios Verify Remove []
        (sortByPrio [(0, nullHook), (1, testHook)]) 0 (some []) ∧
      lookupA 0 ((lookupA OnNewLogger
        (cfgTwo.Run false [] OnNewLogger Remove).hooksAfter).getD []) = none) :=
  ⟨⟨by decide, run_registry_frame.1 cfgTwo false [] OnNewLogger Ignore (by decide)⟩,
   rfl, rfl,
   (run_registry_frame.2 cfgTwo [] OnNewLogger [(0, nullHook), (1, testHook)] [] rfl rfl).1,
   by decide,
   (run_registry_frame.2 cfgTwo [] OnNewLogger [(0, nullHook), (1, testHook)] []
     rfl rfl).2.1 0 (by decide)⟩

/-- C6: Run returns a non-nil error iff the context is nil (NilContext) or the
native payload cannot be encoded into the structured form (CastFailed); both
error paths return immediately — nil result map, registry unchanged, no
callback invoked — and on every other path the returned error is nil, so
callback errors are never surfaced as the Run error. -/
theorem run_error_conditions :
    (∀ (h : Config) (c : Bool) (args : NMap) (t : Typ) (pol : Policy),
        ((h.Run c args t pol).err ≠ none ↔
          (c = true ∨ encodeParams (castToPrimitiveTypes args) = none)))
  ∧ (∀ (h : Config) (c : Bool) (args : NMap) (t : Typ) (pol : Policy), c = true →
        h.Run c args t pol = ⟨none, some GErr.nilContext, h.hooks, []⟩)
  ∧ (∀ (h : Config) (args : NMap) (t : Typ) (pol : Policy),
        encodeParams (castToPrimitiveTypes args) = none →
        h.Run false args t pol = ⟨none, some GErr.castFailed, h.hooks, []⟩)
  ∧ (∀ (h : Config) (args : NMap) (t : Typ) (pol : Policy),
        encodeParams (castToPrimitiveTypes args) ≠ none →
        (h.Run false args t pol).err = none) := by
  have herrcase : ∀ (h : Config) (args : NMap) (t : Typ) (pol : Policy) (params : Strct),
      encodeParams (castToPrimitiveTypes args) = some params →
      (h.Run false args t pol).err = none := by
    intro h args t pol params henc
    rw [Config.Run]
    rcases hloop : runLoop Verify pol params (castToPrimitiveTypes args)
        (sortByPrio ((lookupA t h.hooks).getD [])) 0 ⟨some [], [], []⟩ with ⟨r, cs⟩ | ⟨st⟩
    · rw [runCore_early Verify h.hooks args t pol params r cs henc hloop]
    · rw [runCore_done Verify h.hooks args t pol params st henc hloop]
  refine ⟨?_, ?_, ?_, ?_⟩
  · intro h c args t pol
    cases c with
    | true =>
      constructor
      · intro _
        exact Or.inl rfl
      · intro _
        rw [Config.Run, runCore_nilCtx]
        exact fun hx => Option.noConfusion hx
    | false =>
      rcases henc : encodeParams (castToPrimitiveTypes args) with _ | params
      · constructor
        · intro _
          exact Or.inr rfl
        · intro _
          rw [Config.Run, runCore_castFail Verify h.hooks args t pol henc]
          exact fun hx => Option.noConfusion hx
      · constructor
        · intro hne
          exact absurd (herrcase h args t pol params henc) hne
        · intro hor
          rcases hor with hc | hc
          · exact Bool.noConfusion hc
          · simp at hc
  · intro h c args t pol hc
    subst hc
    rw [Config.Run, runCore_nilCtx]
  · intro h args t pol henc
    rw [Config.Run, runCore_castFail Verify h.hooks args t pol henc]
  · intro h args t pol henc
    obtain ⟨params, hp⟩ := Option.ne_none_iff_exists'.mp henc
    exact herrcase h args t pol params hp

/-- C6 witness: the nil-context path, the cast-failure path on a payload with
an unrepresentable value, and the nil error of a successful run. -/
theorem run_error_conditions_witness :
    (((cfgNull.Run true pIn OnNewLogger Ignore).err ≠ none ↔
        (true = true ∨ encodeParams (castToPrimitiveTypes pIn) = none)) ∧
      cfgNull.Run true pIn OnNewLogger Ignore =
        ⟨none, some GErr.nilContext, cfgNull.hooks, []⟩) ∧
    (encodeParams (castToPrimitiveTypes [("x", NVal.unsupported "fn")]) = none ∧
      cfgNull.Run false [("x", NVal.unsupported "fn")] OnNewLogger Ignore =
        ⟨none, some GErr.castFailed, cfgNull.hooks, []⟩) ∧
    (encodeParams (castToPrimitiveTypes pIn) ≠ none ∧
      (cfgNull.Run false pIn OnNewLogger Ignore).err = none) :=
  ⟨⟨run_error_conditions.1 cfgNull true pIn OnNewLogger Ignore,
    run_error_conditions.2.1 cfgNull true pIn OnNewLogger Ignore rfl⟩,
   ⟨rfl, run_error_conditions.2.2.1 cfgNull [("x", NVal.unsupported "fn")] OnNewLogger
      Ignore rfl⟩,
   ⟨by decide, run_error_conditions.2.2.2 cfgNull pIn OnNewLogger Ignore (by decide)⟩⟩

/-- C8, counterexample to "invoked exactly once each": under Abort, when the
priority-0 callback fails verification, the callback registered at priority 1
is invoked zero times — the trace holds only priority 0. -/
theorem c8_counterexample :
    ((lookupA OnNewLogger cfgTwo.hooks).getD []).map Prod.fst = [0, 1] ∧
    (cfgTwo.Run false [] OnNewLogger Abort).calls.map Prod.fst = [0] ∧
    (1 : Priority) ∉ (cfgTwo.Run false [] OnNewLogger Abort).calls.map Prod.fst :=
  ⟨rfl, rfl, by decide⟩

/-- C8 (amended): within one Run the invocation trace is an initial segment of
the reference chain — so each registered callback is invoked at most once, the
first receiving the encoded initial payload and each later one the value
adopted after the previous step — in strictly ascending priority order when
the registered priorities are duplicate-free; under every policy other than
Abort the trace is the whole chain: every registered callback invoked exactly
once. -/
theorem run_call_order :
    (∀ (h : Config) (args : NMap) (t : Typ) (pol : Policy) (params : Strct),
        encodeParams (castToPrimitiveTypes args) = some params →
        ∃ k, (h.Run false args t pol).calls =
          (chainCalls Verify pol params (sortByPrio ((lookupA t h.hooks).getD [])) 0
            (some [])).take k)
  ∧ (∀ (h : Config) (args : NMap) (t : Typ) (pol : Policy) (params : Strct),
        encodeParams (castToPrimitiveTypes args) = some params →
        ((((lookupA t h.hooks).getD []).map Prod.fst).Nodup) →
        ((h.Run false args t pol).calls.map Prod.fst).Pairwise (fun a b => a < b))
  ∧ (∀ (h : Config) (args : NMap) (t : Typ) (pol : Policy) (params : Strct),
        encodeParams (castToPrimitiveTypes args) = some params → pol ≠ Abort →
        (h.Run false args t pol).calls =
          chainCalls Verify pol params (sortByPrio ((lookupA t h.hooks).getD []))
            0 (some [])) := by
  have key : ∀ (h : Config) (args : NMap) (t : Typ) (pol : Policy) (params : Strct),
      encodeParams (castToPrimitiveTypes args) = some params →
      ∃ k, (h.Run false args t pol).calls =
        (chainCalls Verify pol params (sortByPrio ((lookupA t h.hooks).getD [])) 0
          (some [])).take k := by
    intro h args t pol params henc
    rw [Config.Run]
    rcases hloop : runLoop Verify pol params (castToPrimitiveTypes args)
        (sortByPrio ((lookupA t h.hooks).getD [])) 0 ⟨some [], [], []⟩ with ⟨r, cs⟩ | ⟨st⟩
    · rw [runCore_early Verify h.hooks args t pol params r cs henc hloop]
      obtain ⟨k, hk⟩ := runLoop_early_calls Verify pol params
        (castToPrimitiveTypes args) _ _ _ _ _ hloop
      exact ⟨k, hk⟩
    · rw [runCore_done Verify h.hooks args t pol params st henc hloop]
      have hspec := runLoop_done_spec Verify pol params
        (castToPrimitiveTypes args) _ _ _ _ hloop
      refine ⟨(chainCalls Verify pol params (sortByPrio ((lookupA t h.hooks).getD [])) 0
        (some [])).length, ?_⟩
      rw [List.take_length]
      show st.calls = _
      rw [hspec]
      rfl
  refine ⟨key, ?_, ?_⟩
  · intro h args t pol params henc hnd
    obtain ⟨k, hk⟩ := key h args t pol params henc
    rw [hk, List.map_take, chainCalls_map_fst]
    exact List.Pairwise.sublist (List.take_sublist _ _) (sortByPrio_strict _ hnd)
  · intro h args t pol params henc hpol
    obtain ⟨st, hloop⟩ := runLoop_done_of_ne_abort Verify pol params
      (castToPrimitiveTypes args) hpol (sortByPrio ((lookupA t h.hooks).getD [])) 0
      ⟨some [], [], []⟩
    rw [Config.Run, runCore_done Verify h.hooks args t pol params st henc hloop]
    have hspec := runLoop_done_spec Verify pol params (castToPrimitiveTypes args) _ _ _ _ hloop
    show st.calls = _
    rw [hspec]
    rfl

/-- C8 witness: all three parts on the two-callback registry under Remove with
payload {test: "test"}. -/
theorem run_call_order_witness :
    (encodeParams (castToPrimitiveTypes pIn) = some pStr ∧
      ((((lookupA OnNewLogger cfgTwo.hooks).getD []).map Prod.fst).Nodup) ∧
      (Remove : Policy) ≠ Abort) ∧
    ((∃ k, (cfgTwo.Run false pIn OnNewLogger Remove).calls =
        (chainCalls Verify Remove pStr
          (sortByPrio ((lookupA OnNewLogger cfgTwo.hooks).getD [])) 0 (some [])).take k) ∧
      ((cfgTwo.Run false pIn OnNewLogger Remove).calls.map Prod.fst).Pairwise
        (fun a b => a < b) ∧
      (cfgTwo.Run false pIn OnNewLogger Remove).calls =
        chainCalls Verify Remove pStr
          (sortByPrio ((lookupA OnNewLogger cfgTwo.hooks).getD [])) 0 (some [])) :=
  ⟨⟨rfl, by decide, by decide⟩,
   run_call_order.1 cfgTwo pIn OnNewLogger Remove pStr rfl,
   run_call_order.2.1 cfgTwo pIn OnNewLogger Remove pStr rfl (by decide),
   run_call_order.2.2 cfgTwo pIn OnNewLogger Remove pStr rfl (by decide)⟩

/-- C9: Add(t, p, f) followed by Add(t, p, g) leaves exactly one entry at
(t, p) — the key set of the inner map stays duplicate-free and the lookup at p
yields g — and leaves every other (type, priority) key unchanged. -/
theorem add_replaces :
    ∀ (h : Config) (t : Typ) (p : Priority) (f g : HookDef),
      (((lookupA t h.hooks).getD []).map Prod.fst).Nodup →
      (((((lookupA t (((h.Add t p f).Add t p g).hooks)).getD []).map Prod.fst).Nodup)
      ∧ lookupA p ((lookupA t (((h.Add t p f).Add t p g).hooks)).getD []) = some g
      ∧ (∀ p2, p2 ≠ p →
          lookupA p2 ((lookupA t (((h.Add t p f).Add t p g).hooks)).getD []) =
            lookupA p2 ((lookupA t h.hooks).getD []))
      ∧ (∀ t2, t2 ≠ t →
          lookupA t2 (((h.Add t p f).Add t p g).hooks) = lookupA t2 h.hooks)) := by
  intro h t p f g hnd
  have hl1 : lookupA t ((h.Add t p f).hooks) =
      some (setA p f ((lookupA t h.hooks).getD [])) := by
    simp only [Config.Add]
    exact lookupA_setA_self t _ h.hooks
  have hfin : lookupA t (((h.Add t p f).Add t p g).hooks) =
      some (setA p g (setA p f ((lookupA t h.hooks).getD []))) := by
    simp only [Config.Add] at hl1 ⊢
    rw [hl1, Option.getD_some]
    exact lookupA_setA_self t _ _
  refine ⟨?_, ?_, ?_, ?_⟩
  · rw [hfin, Option.getD_some]
    have hps : (lookupA p (setA p f ((lookupA t h.hooks).getD []))).isSome = true := by
      rw [lookupA_setA_self]
      rfl
    rw [mapfst_setA, if_pos hps, mapfst_setA]
    by_cases hp : (lookupA p ((lookupA t h.hooks).getD [])).isSome = true
    · rw [if_pos hp]
      exact hnd
    · rw [if_neg hp]
      have hpn : p ∉ ((lookupA t h.hooks).getD []).map Prod.fst := by
        intro hmem
        exact hp ((lookupA_isSome_iff p _).mpr hmem)
      simp [List.nodup_append, hnd, hpn]
  · rw [hfin, Option.getD_some]
    exact lookupA_setA_self p g _
  · intro p2 hp2
    rw [hfin, Option.getD_some, lookupA_setA_ne p p2 g hp2, lookupA_setA_ne p p2 f hp2]
  · intro t2 ht2
    simp only [Config.Add]
    rw [lookupA_setA_ne t t2 _ ht2, lookupA_setA_ne t t2 _ ht2]

/-- C9 witness: re-adding at (onNewLogger, 0) on the empty registry replaces
the first callback with the second. -/
theorem add_replaces_witness :
    ((((lookupA OnNewLogger NewHookConfig.hooks).getD []).map Prod.fst).Nodup) ∧
    (((((lookupA OnNewLogger (((NewHookConfig.Add OnNewLogger 0 nullHook).Add
        OnNewLogger 0 testHook).hooks)).getD []).map Prod.fst).Nodup) ∧
      lookupA 0 ((lookupA OnNewLogger (((NewHookConfig.Add OnNewLogger 0 nullHook).Add
        OnNewLogger 0 testHook).hooks)).getD []) = some testHook) :=
  ⟨List.nodup_nil,
   (add_replaces NewHookConfig OnNewLogger 0 nullHook testHook List.nodup_nil).1,
   (add_replaces NewHookConfig OnNewLogger 0 nullHook testHook List.nodup_nil).2.1⟩

end hook
